import Mathlib

/-!
Verification of the `go-idpc-plugin` runtime (plugin.go) against its
natural-language specification.  Strings are modelled as `List Char`,
Go's `float64` as an exact extended-rational type (`GoFloat`: finite
rationals, signed infinities and NaN; rounding of finite arithmetic is
not modelled), machine integers as `Nat`/`Int` with explicit `% 2^w`
where overflow matters, and timestamps as rational seconds.
-/

namespace IdpcPlugin

/-! ### Character classes (Go regexp `\w`, `\s`, `\d` are ASCII) -/

def isWordChar (c : Char) : Bool :=
  (('a' ≤ c && c ≤ 'z') || ('A' ≤ c && c ≤ 'Z') || ('0' ≤ c && c ≤ '9') || c = '_')

def isSpaceChar (c : Char) : Bool :=
  (c = ' ' || c = '\t' || c = '\n' || c = '\x0b' || c = '\x0c' || c = '\r')

def isDigitChar (c : Char) : Bool :=
  ('0' ≤ c && c ≤ '9')

/-- `span`: longest prefix satisfying `p`, and the remainder. -/
def spanP (p : Char → Bool) : List Char → List Char × List Char
  | [] => ([], [])
  | c :: r =>
    if p c then
      let s := spanP p r
      (c :: s.1, s.2)
    else ([], c :: r)

/-- Match a literal string at the head of the input, returning the rest. -/
def expectLit : List Char → List Char → Option (List Char)
  | [], s => some s
  | _ :: _, [] => none
  | c :: l, x :: s => if x = c then expectLit l s else none

/-! ### Decimal rendering and parsing of natural numbers
(models Go's `%d` formatting and `strconv.ParseUint`) -/

def digitChar (n : Nat) : Char := Char.ofNat (48 + n)

/-- Big-endian decimal digits of `n`; fuel-driven so that it reduces in the
kernel.  `natToStrAux fuel n` is correct whenever `n ≤ fuel`. -/
def natToStrAux : Nat → Nat → List Char
  | 0, _ => []
  | fuel + 1, n =>
    if n = 0 then [] else natToStrAux fuel (n / 10) ++ [digitChar (n % 10)]

/-- Decimal rendering of a natural number (Go `fmt` `%d`). -/
def natToStr (n : Nat) : List Char :=
  if n = 0 then ['0'] else natToStrAux (n + 1) n

/-- Value of a big-endian digit string. -/
def parseDigits (l : List Char) : Nat :=
  l.foldl (fun a c => a * 10 + (c.toNat - 48)) 0

inductive ParseErr where
  | synErr
  | rangeErr
deriving DecidableEq, Repr

/-- Go `strconv.ParseUint(s, 10, bitSize)`: returns the parsed value
together with an optional error.  On a syntax error the accompanying
value is 0; on a range error it is `maxVal` (the largest value of the
bit size). -/
def parseUintGo (s : List Char) (maxVal : Nat) : Nat × Option ParseErr :=
  if s.isEmpty then (0, some .synErr)
  else if s.all isDigitChar then
    let n := parseDigits s
    if n > maxVal then (maxVal, some .rangeErr) else (n, none)
  else (0, some .synErr)

def maxUint32 : Nat := 4294967295
def maxUint64 : Nat := 18446744073709551615

/-! ### Version model -/

structure Version where
  Major : Nat
  Minor : Nat
  Patch : Nat
deriving DecidableEq, Repr

/-- `Version.String`: the dotted-decimal rendering `major.minor.patch`. -/
def Version.String (v : Version) : List Char :=
  natToStr v.Major ++ '.' :: natToStr v.Minor ++ '.' :: natToStr v.Patch

/-- First occurrence split: `splitFirst sep s = some (a, b)` when
`s = a ++ sep :: b` with `sep ∉ a`. -/
def splitFirst (sep : Char) : List Char → Option (List Char × List Char)
  | [] => none
  | c :: r =>
    if c = sep then some ([], r)
    else
      match splitFirst sep r with
      | none => none
      | some (a, b) => some (c :: a, b)

/-- Go `strings.SplitN(s, sep, 3)`: at most three parts, the third keeps
any further separators. -/
def splitN3 (sep : Char) (s : List Char) : List (List Char) :=
  match splitFirst sep s with
  | none => [s]
  | some (a, r) =>
    match splitFirst sep r with
    | none => [a, r]
    | some (b, r2) => [a, b, r2]

/-- Go `ParseVersion`: split on `.` into at most 3 parts (error if fewer
than 3), parse each with `strconv.ParseUint(_, 10, 32)`. -/
def ParseVersion (s : List Char) : Option Version :=
  match splitN3 '.' s with
  | [a, b, c] =>
    match parseUintGo a maxUint32, parseUintGo b maxUint32, parseUintGo c maxUint32 with
    | (x, none), (y, none), (z, none) => some ⟨x, y, z⟩
    | _, _, _ => none
  | _ => none

/-! ### Descriptor (Meta) model and the version-line wire contract -/

def TypeChecker : List Char := "checker".toList
def TypeMetrics : List Char := "metrics".toList
def TypeMetadata : List Char := "metadata".toList

structure Meta where
  Key : List Char
  -- field `Type` in the source; `Type` is a Lean keyword
  Typ : List Char
  Version : Version
  Revision : List Char
  GOOS : List Char
  GOARCH : List Char
  GOVersion : List Char
deriving DecidableEq, Repr

/-- `Meta.String`: the canonical version line
`idpc-plugin-<key>-<type> version <version> (rev <rev>) [<os> <arch> <gover>]`. -/
def Meta.String (b : Meta) : List Char :=
  "idpc-plugin-".toList ++ b.Key ++ '-' :: b.Typ
    ++ " version ".toList ++ b.Version.String
    ++ " (rev ".toList ++ b.Revision
    ++ ") [".toList ++ b.GOOS ++ ' ' :: b.GOARCH ++ ' ' :: b.GOVersion
    ++ "]".toList

def metaEmpty : Meta := ⟨[], [], ⟨0, 0, 0⟩, [], [], [], []⟩

/-- `\w+` group: longest non-empty word-character run. -/
def word1 (s : List Char) : Option (List Char × List Char) :=
  let p := spanP isWordChar s
  if p.1.isEmpty then none else some p

/-- `\s+`: at least one whitespace character, maximal run. -/
def ws1 (s : List Char) : Option (List Char) :=
  let p := spanP isSpaceChar s
  if p.1.isEmpty then none else some p.2

/-- `\d{1,3}` followed by a non-digit: maximal digit run of length 1–3. -/
def digits13 (s : List Char) : Option (List Char × List Char) :=
  let p := spanP isDigitChar s
  if p.1.length = 0 || p.1.length > 3 then none else some p

/-- `(.+)]` at the end of `PluginVersionRegex` (the pattern has no `$`
anchor): the group runs up to the last `]` lying inside the maximal
newline-free prefix, and must be non-empty. -/
def upToLastRBracket (s : List Char) : Option (List Char) :=
  let pre := (spanP (fun c => !(c = '\n')) s).1
  match (spanP (fun c => !(c = ']')) pre.reverse).2 with
  | [] => none
  | _ :: before =>
    if before.isEmpty then none else some before.reverse

/-- The seven capture groups of `PluginVersionRegex` (group 3, the
version, is kept as its raw text). -/
structure VersionGroups where
  key : List Char
  ty : List Char
  ver : List Char
  rev : List Char
  os : List Char
  arch : List Char
  gover : List Char
deriving DecidableEq, Repr

/-- Stage 1 of `PluginVersionRegex`: `^\\s*idpc-plugin-(\\w+)-`
`(checker|metrics|metadata)` — returns groups 1 and 2 and the rest. -/
def matchHead (s : List Char) : Option (List Char × List Char × List Char) := do
  let s1 ← expectLit "idpc-plugin-".toList (spanP isSpaceChar s).2
  let (key, s2) ← word1 s1
  let s3 ← expectLit ['-'] s2
  match expectLit TypeChecker s3 with
  | some r => some (key, TypeChecker, r)
  | none =>
    match expectLit TypeMetrics s3 with
    | some r => some (key, TypeMetrics, r)
    | none =>
      match expectLit TypeMetadata s3 with
      | some r => some (key, TypeMetadata, r)
      | none => none

/-- Stage 2: `\\s+version\\s+(\\d{1,3}\\.\\d{1,3}\\.\\d{1,3})` —
returns group 3 (raw text) and the rest. -/
def matchVersionPart (s : List Char) : Option (List Char × List Char) := do
  let s1 ← ws1 s
  let s2 ← expectLit "version".toList s1
  let s3 ← ws1 s2
  let (d1, s4) ← digits13 s3
  let s5 ← expectLit ['.'] s4
  let (d2, s6) ← digits13 s5
  let s7 ← expectLit ['.'] s6
  let (d3, s8) ← digits13 s7
  some (d1 ++ '.' :: d2 ++ '.' :: d3, s8)

/-- Stage 3: `\\s+\\(rev\\s+(\\w+)\\)` — returns group 4 and the rest. -/
def matchRevPart (s : List Char) : Option (List Char × List Char) := do
  let s1 ← ws1 s
  let s2 ← expectLit "(rev".toList s1
  let s3 ← ws1 s2
  let (rev, s4) ← word1 s3
  let s5 ← expectLit [')'] s4
  some (rev, s5)

/-- Stage 4: `\\s+\\[(\\w+)\\s+(\\w+)\\s+(.+)]` — returns groups 5–7. -/
def matchBuildPart (s : List Char) : Option (List Char × List Char × List Char) := do
  let s1 ← ws1 s
  let s2 ← expectLit ['['] s1
  let (os, s3) ← word1 s2
  let s4 ← ws1 s3
  let (arch, s5) ← word1 s4
  let s6 ← ws1 s5
  let gover ← upToLastRBracket s6
  some (os, arch, gover)

/-- Deterministic rendering of `PluginVersionRegex`
`^\\s*idpc-plugin-(\\w+)-(checker|metrics|metadata)\\s+version\\s+`
`(\\d{1,3}\\.\\d{1,3}\\.\\d{1,3})\\s+\\(rev\\s+(\\w+)\\)\\s+\\[(\\w+)\\s+(\\w+)\\s+(.+)]`.
Every repetition is bounded by a disjoint follower, so the leftmost
match is the greedy one. -/
def matchVersionRegex (s : List Char) : Option VersionGroups := do
  let (key, ty, r1) ← matchHead s
  let (ver, r2) ← matchVersionPart r1
  let (rev, r3) ← matchRevPart r2
  let (os, arch, gover) ← matchBuildPart r3
  some ⟨key, ty, ver, rev, os, arch, gover⟩

/-- `ParseVersionCommand`: run the regex (no match returns the empty
descriptor), then `ParseVersion` on group 3 (failure also returns the
empty descriptor), then assemble the `Meta`. -/
def ParseVersionCommand (s : List Char) : Meta :=
  match matchVersionRegex s with
  | none => metaEmpty
  | some g =>
    match ParseVersion g.ver with
    | none => metaEmpty
    | some version => ⟨g.key, g.ty, version, g.rev, g.os, g.arch, g.gover⟩

/-! ### Go float64 model: exact rationals extended with signed
infinities and NaN.  Rounding of finite arithmetic is not modelled;
all operands in the claims below convert exactly. -/

inductive GoFloat where
  | fin (q : ℚ)
  | inf (pos : Bool)
  | nan
deriving DecidableEq, Repr

def GoFloat.sub : GoFloat → GoFloat → GoFloat
  | .fin a, .fin b => .fin (a - b)
  | .nan, _ => .nan
  | _, .nan => .nan
  | .inf p, .fin _ => .inf p
  | .fin _, .inf p => .inf (!p)
  | .inf p, .inf q => if p = q then .nan else .inf p

def GoFloat.mul : GoFloat → GoFloat → GoFloat
  | .fin a, .fin b => .fin (a * b)
  | .nan, _ => .nan
  | _, .nan => .nan
  | .inf p, .fin b => if b = 0 then .nan else .inf (p == decide (0 < b))
  | .fin a, .inf p => if a = 0 then .nan else .inf (p == decide (0 < a))
  | .inf p, .inf q => .inf (p == q)

/-- IEEE division.  A finite value divided by (positive) zero is a
signed infinity, `0/0` is NaN; the divisors in this development come
from integers, so a negative zero cannot arise.  Finite quotients are
kept exact: rounding to the nearest float64 is not modelled, and the
claims below that assert the numeric value of a quotient restrict
themselves to exactly representable cases (divisor dividing the
dividend, both below 2^53), where IEEE division is exact. -/
def GoFloat.div : GoFloat → GoFloat → GoFloat
  | .fin a, .fin b =>
    if b = 0 then (if a = 0 then .nan else .inf (decide (0 < a)))
    else .fin (a / b)
  | .nan, _ => .nan
  | _, .nan => .nan
  | .inf p, .fin b => .inf (p == decide (0 ≤ b))
  | .fin _, .inf _ => .fin 0
  | .inf _, .inf _ => .nan

/-- IEEE `<`: every comparison with NaN is false. -/
def GoFloat.lt : GoFloat → GoFloat → Bool
  | .nan, _ => false
  | _, .nan => false
  | .fin a, .fin b => decide (a < b)
  | .fin _, .inf p => p
  | .inf p, .fin _ => !p
  | .inf p, .inf q => !p && q

/-- IEEE `<=`: every comparison with NaN is false. -/
def GoFloat.le : GoFloat → GoFloat → Bool
  | .nan, _ => false
  | _, .nan => false
  | .fin a, .fin b => decide (a ≤ b)
  | .fin _, .inf p => p
  | .inf p, .fin _ => !p
  | .inf p, .inf q => !p || q

def GoFloat.isFinite : GoFloat → Bool
  | .fin _ => true
  | _ => false

/-! ### Rate Engine (`calcDiff`, `calcDiffUint32`, `calcDiffUint64`).
Timestamps are passed as Unix seconds (`now.Unix() - lastTime.Unix()`
in the source). -/

inductive CalcErr where
  | durationTooLong
  | counterReset
deriving DecidableEq, Repr

instance exceptDecEq {e a : Type} [DecidableEq e] [DecidableEq a] :
    DecidableEq (Except e a) := fun x y =>
  match x, y with
  | .ok u, .ok v => if h : u = v then .isTrue (by rw [h]) else .isFalse (by simp [h])
  | .error u, .error v => if h : u = v then .isTrue (by rw [h]) else .isFalse (by simp [h])
  | .ok _, .error _ => .isFalse (by simp)
  | .error _, .ok _ => .isFalse (by simp)

def calcDiff (value : GoFloat) (now : ℤ) (lastValue : GoFloat) (lastTime : ℤ) :
    Except CalcErr GoFloat :=
  let diffTime : ℤ := now - lastTime
  if diffTime > 600 then .error .durationTooLong
  else
    let diff := GoFloat.div (GoFloat.mul (GoFloat.sub value lastValue) (.fin 60))
      (.fin (diffTime : ℚ))
    if GoFloat.le lastValue value = true then .ok diff
    else .error .counterReset

/-- uint32 variant.  `(value-lastValue)*60` is computed in uint32
arithmetic: the subtraction and the multiplication both wrap modulo
2^32 (`value + 2^32 - lastValue` encodes Go's wrapping subtraction for
operands below 2^32).  The wrapped product converts exactly to
float64. -/
def calcDiffUint32 (value : Nat) (now : ℤ) (lastValue : Nat) (lastTime : ℤ)
    (lastDiff : GoFloat) : Except CalcErr GoFloat :=
  let diffTime : ℤ := now - lastTime
  if diffTime > 600 then .error .durationTooLong
  else
    let num : Nat := ((value + 4294967296 - lastValue) % 4294967296 * 60) % 4294967296
    let diff := GoFloat.div (.fin (num : ℚ)) (.fin (diffTime : ℚ))
    if lastValue ≤ value ∨ GoFloat.lt diff (GoFloat.mul lastDiff (.fin 10)) = true then
      .ok diff
    else .error .counterReset

/-- uint64 variant; the wrap is modulo 2^64.  (Go additionally rounds
the uint64→float64 conversion above 2^53; that rounding is not
modelled.) -/
def calcDiffUint64 (value : Nat) (now : ℤ) (lastValue : Nat) (lastTime : ℤ)
    (lastDiff : GoFloat) : Except CalcErr GoFloat :=
  let diffTime : ℤ := now - lastTime
  if diffTime > 600 then .error .durationTooLong
  else
    let num : Nat :=
      ((value + 18446744073709551616 - lastValue) % 18446744073709551616 * 60)
        % 18446744073709551616
    let diff := GoFloat.div (.fin (num : ℚ)) (.fin (diffTime : ℚ))
    if lastValue ≤ value ∨ GoFloat.lt diff (GoFloat.mul lastDiff (.fin 10)) = true then
      .ok diff
    else .error .counterReset

/-! ### Dynamic values (`interface{}`), association-list maps, and the
numeric conversion helpers `toUint32`, `toUint64`, `toFloat64`. -/

inductive GoValue where
  | null
  | str (s : List Char)
  | u32 (n : Nat)
  | u64 (n : Nat)
  | i64 (n : ℤ)
  | f (x : GoFloat)
deriving DecidableEq, Repr

abbrev GoMap := List (List Char × GoValue)

def mapGet (m : GoMap) (k : List Char) : Option GoValue :=
  match m with
  | [] => none
  | (k', v) :: r => if k' = k then some v else mapGet r k

/-- Insert-or-replace; keeps keys unique. -/
def mapSet (m : GoMap) (k : List Char) (v : GoValue) : GoMap :=
  match m with
  | [] => [(k, v)]
  | (k', v') :: r => if k' = k then (k, v) :: r else (k', v') :: mapSet r k v

/-- `reflect.DeepEqual` on two maps with unique keys: same size and
every entry of `a` present in `b` with a deep-equal value. -/
def mapEqB (a b : GoMap) : Bool :=
  a.length == b.length && a.all fun kv => mapGet b kv.1 == some kv.2

/-- Go `int64(q)` for a float64 value: truncation toward zero. -/
def i64ofF (q : ℚ) : ℤ := q.num / q.den

/-- `time.Time.Unix`: whole seconds (floor of the instant). -/
def unixSec (q : ℚ) : ℤ := ⌊q⌋

/-- Go `uint32(x)` from float64.  In-range values truncate; the
out-of-range and non-finite cases are architecture-dependent in Go and
are modelled as 0. -/
def f64toUint32 : GoFloat → Nat
  | .fin q => if 0 ≤ q ∧ q < 4294967296 then (i64ofF q).toNat else 0
  | _ => 0

def f64toUint64 : GoFloat → Nat
  | .fin q => if 0 ≤ q ∧ q < 18446744073709551616 then (i64ofF q).toNat else 0
  | _ => 0

def toUint32 : GoValue → Nat
  | .u32 n => n
  | .u64 n => n % 4294967296
  | .f x => f64toUint32 x
  | .str s =>
    match parseUintGo s maxUint32 with
    | (_, some _) => 0
    | (n, none) => n
  | _ => 0

def toUint64 : GoValue → Nat
  | .u32 n => n
  | .u64 n => n
  | .f x => f64toUint64 x
  | .str s =>
    match parseUintGo s maxUint64 with
    | (_, some _) => 0
    | (n, none) => n
  | _ => 0

/-- Exponent tail of a decimal float: `[sign] digits`, consuming the
whole remainder. -/
def parseExpTail (r : List Char) : Option ℤ :=
  let (eneg, r1) :=
    match r with
    | '-' :: t => (true, t)
    | '+' :: t => (false, t)
    | t => (false, t)
  let (ed, r2) := spanP isDigitChar r1
  if ed.isEmpty || !r2.isEmpty then none
  else some (if eneg then -(parseDigits ed : ℤ) else (parseDigits ed : ℤ))

/-- Decimal syntax of Go `strconv.ParseFloat(s, 64)`:
`[sign] digits [. digits] [(e|E) [sign] digits]` with at least one
mantissa digit, as an exact rational.  Hex floats, `inf`/`nan` words
and underscore separators are outside this model; the claims below
scope themselves to the decimal alphabet accordingly. -/
def parseFloatCore (s : List Char) : Option ℚ :=
  let (neg, s1) :=
    match s with
    | '-' :: r => (true, r)
    | '+' :: r => (false, r)
    | r => (false, r)
  let (ip, s2) := spanP isDigitChar s1
  let (fp, s3) :=
    match s2 with
    | '.' :: r => spanP isDigitChar r
    | r => ([], r)
  if ip.isEmpty && fp.isEmpty then none
  else
    let expPart : Option ℤ :=
      match s3 with
      | [] => some 0
      | 'e' :: r => parseExpTail r
      | 'E' :: r => parseExpTail r
      | _ => none
    match expPart with
    | none => none
    | some e =>
      let mag : ℚ :=
        ((parseDigits ip : ℚ) + (parseDigits fp : ℚ) / (10 : ℚ) ^ fp.length) * (10 : ℚ) ^ e
      some (if neg then -mag else mag)

/-- IEEE round-to-nearest-even overflow threshold of float64: values
with magnitude at or above it round to infinity. -/
def f64OverflowCutoff : ℚ := 2 ^ 1024 - 2 ^ 970

/-- Magnitudes at or below this bound (half the smallest subnormal)
round to zero. -/
def f64UnderflowCutoff : ℚ := 1 / 2 ^ 1075

/-- Go `strconv.ParseFloat(s, 64)` on the decimal alphabet: a syntax
error returns 0 with an error; an overflowing value returns ±infinity
with a range error; a nonzero value that underflows to zero returns 0
with a range error.  In-range values are kept exact (rounding to the
nearest float64 is not modelled; the error-path values 0 and ±infinity
are exact, and the claims below only rely on those). -/
def parseFloatGo (s : List Char) : GoFloat × Option ParseErr :=
  match parseFloatCore s with
  | none => (.fin 0, some .synErr)
  | some q =>
    if f64OverflowCutoff ≤ q then (.inf true, some .rangeErr)
    else if q ≤ -f64OverflowCutoff then (.inf false, some .rangeErr)
    else if q ≠ 0 ∧ -f64UnderflowCutoff ≤ q ∧ q ≤ f64UnderflowCutoff then
      (.fin 0, some .rangeErr)
    else (.fin q, none)

def toFloat64 : GoValue → GoFloat
  | .u32 n => .fin n
  | .u64 n => .fin n
  | .f x => x
  | .str s =>
    match parseFloatGo s with
    | (_, some _) => .fin 0
    | (x, none) => x
  | _ => .fin 0

/-! ### State Store: `LoadLastValues`, `loadLastValuesSafe`,
`SaveValues`.  The state file is modelled as an optional decoded map
(`none` = file absent); the `encoding/json` round trip turns every
stored number into a float64. -/

structure PluginValues where
  Values : GoMap
  Timestamp : ℚ
deriving DecidableEq, Repr

def lastTimeKey : List Char := "_lastTime".toList

def jsonNum : GoValue → GoValue
  | .i64 n => .f (.fin n)
  | .u32 n => .f (.fin n)
  | .u64 n => .f (.fin n)
  | v => v

/-- The `encoding/json` round trip of the state file: all numbers
decode as float64. -/
def decodeMap (m : GoMap) : GoMap := m.map fun kv => (kv.1, jsonNum kv.2)

/-- Unix value of Go's zero `time.Time` (January 1, year 1 UTC), the
timestamp of an absent or timestamp-less state file. -/
def zeroTimeUnix : ℚ := -62135596800

def LoadLastValues (file : Option GoMap) : PluginValues :=
  match file with
  | none => ⟨[], zeroTimeUnix⟩
  | some m0 =>
    let vals := decodeMap m0
    let ts : ℚ :=
      match mapGet vals lastTimeKey with
      | some (.f (.fin q)) => ((i64ofF q : ℤ) : ℚ)
      | some (.i64 n) => (n : ℚ)
      | _ => zeroTimeUnix
    ⟨vals, ts⟩

inductive LoadErr where
  | stateUpdated
deriving DecidableEq, Repr

/-- `loadLastValuesSafe`: as `LoadLastValues` but fails with
`errStateUpdated` when `now.Sub(m.Timestamp) < time.Second`. -/
def loadLastValuesSafe (file : Option GoMap) (now : ℚ) : Except LoadErr PluginValues :=
  let m := LoadLastValues file
  if now - m.Timestamp < 1 then .error .stateUpdated else .ok m

/-! ### The metadata cycle (`OutputMetadataValues`).  The world records
the state file, the JSON objects printed to stdout, and how many
state-file writes happened. -/

structure MetaWorld where
  file : Option GoMap
  stdout : List GoMap
  writes : Nat
deriving DecidableEq, Repr

/-- `SaveValues`: store the value map plus `_lastTime` (the timestamp
as Unix seconds) and overwrite the state file. -/
def SaveValues (w : MetaWorld) (values : PluginValues) : MetaWorld :=
  { w with
    file := some (mapSet values.Values lastTimeKey (.i64 (unixSec values.Timestamp)))
    writes := w.writes + 1 }

/-- One metadata cycle: guarded load (stale → stop silently before any
output); print the fetched metadata map as JSON; carry the previous
`_lastTime` into the new map (a missing previous entry reads as nil);
save only if the maps are not deeply equal.  The metadata fetch itself
is passed in already successful (a failing fetch is fatal and produces
neither output nor write). -/
def OutputMetadataValues (metadata : GoMap) (now : ℚ) (w : MetaWorld) : MetaWorld :=
  match loadLastValuesSafe w.file now with
  | .error _ => w
  | .ok preMetadata =>
    let w1 : MetaWorld := { w with stdout := w.stdout ++ [metadata] }
    let md := mapSet metadata lastTimeKey
      ((mapGet preMetadata.Values lastTimeKey).getD .null)
    if mapEqB preMetadata.Values md = true then w1
    else SaveValues w1 ⟨md, now⟩

/-! ### Output Formatter: `printValue`, `formatValues`,
`formatValuesWithWildcard`. -/

structure Metrics where
  Name : List Char
  Label : List Char
  Diff : Bool
  Typ : List Char
  Stacked : Bool
  Scale : ℚ
  AbsoluteName : Bool
deriving DecidableEq, Repr

def metricTypeUint32 : List Char := "uint32".toList
def metricTypeUint64 : List Char := "uint64".toList

/-- An emitted line `<key>\t<value>\t<unixSeconds>`. -/
abbrev Emission := List Char × GoValue × ℤ

/-- `printValue`: uint32/uint64/float64 values produce a line; a
non-finite float is logged and suppressed; any other dynamic type
produces nothing. -/
def printValue (key : List Char) (value : GoValue) (now : ℚ) : Option Emission :=
  match value with
  | .u32 n => some (key, .u32 n, unixSec now)
  | .u64 n => some (key, .u64 n, unixSec now)
  | .f x => if x.isFinite then some (key, .f x, unixSec now) else none
  | _ => none

def lastDiffPrefix : List Char := ".last_diff.".toList

def joinName (pluginKey pfx name : List Char) : List Char :=
  pluginKey ++ (if pfx.length > 0 then '.' :: pfx else []) ++ '.' :: name

/-- `formatValues`: resolve one metric against the current and previous
observation sets.  Returns the emitted line (if any) and the current
value map (updated with `.last_diff.<name>` when a diff was
computed). -/
def formatValues (pluginKey : List Char) (pfx : List Char) (metric : Metrics)
    (metricValues lastMetricValues : PluginValues) : Option Emission × GoMap :=
  let name :=
    if metric.AbsoluteName ∧ pfx.length > 0 then pfx ++ '.' :: metric.Name
    else metric.Name
  match mapGet metricValues.Values name with
  | none => (none, metricValues.Values)
  | some .null => (none, metricValues.Values)
  | some v0 =>
    -- textual values parse per value-kind; the parse error is only
    -- logged and the parser's returned value is kept
    let value : GoValue :=
      match v0 with
      | .str v =>
        if metric.Typ = metricTypeUint32 then .u64 (parseUintGo v maxUint32).1
        else if metric.Typ = metricTypeUint64 then .u64 (parseUintGo v maxUint64).1
        else .f (parseFloatGo v).1
      | v => v
    let afterDiff : Option (GoValue × GoMap) :=
      if metric.Diff then
        match mapGet lastMetricValues.Values name with
        | none => none  -- "does not exist at last fetch": skip
        | some lastRaw =>
          let lastDiff : GoFloat :=
            match mapGet lastMetricValues.Values (lastDiffPrefix ++ name) with
            | some .null => .fin 0
            | some ldv => toFloat64 ldv
            | none => .fin 0
          let res : Except CalcErr GoFloat :=
            if metric.Typ = metricTypeUint32 then
              calcDiffUint32 (toUint32 value) (unixSec metricValues.Timestamp)
                (toUint32 lastRaw) (unixSec lastMetricValues.Timestamp) lastDiff
            else if metric.Typ = metricTypeUint64 then
              calcDiffUint64 (toUint64 value) (unixSec metricValues.Timestamp)
                (toUint64 lastRaw) (unixSec lastMetricValues.Timestamp) lastDiff
            else
              calcDiff (toFloat64 value) (unixSec metricValues.Timestamp)
                (toFloat64 lastRaw) (unixSec lastMetricValues.Timestamp)
          match res with
          | .error _ => none  -- rate failure: skip this metric, cycle continues
          | .ok d => some (.f d, mapSet metricValues.Values (lastDiffPrefix ++ name) (.f d))
      else some (value, metricValues.Values)
    match afterDiff with
    | none => (none, metricValues.Values)
    | some (value1, values1) =>
      let value2 : GoValue :=
        if metric.Scale ≠ 0 then
          if metric.Typ = metricTypeUint32 then
            .u32 (toUint32 value1 * f64toUint32 (.fin metric.Scale) % 4294967296)
          else if metric.Typ = metricTypeUint64 then
            .u64 (toUint64 value1 * f64toUint64 (.fin metric.Scale) % 18446744073709551616)
          else .f (GoFloat.mul (toFloat64 value1) (.fin metric.Scale))
        else value1
      (printValue (joinName pluginKey pfx metric.Name) value2 metricValues.Timestamp, values1)

/-- One token of the compiled wildcard pattern: a literal character
(dots are escaped) or `[-a-zA-Z0-9_]+` standing for a `*`/`#`. -/
inductive PatTok where
  | lit (c : Char)
  | classPlus
deriving DecidableEq, Repr

def isClassChar (c : Char) : Bool :=
  (c = '-' || ('a' ≤ c && c ≤ 'z') || ('A' ≤ c && c ≤ 'Z') || ('0' ≤ c && c ≤ '9') || c = '_')

/-- The pattern `\A` + prefix + `.` + name with `.` escaped and `*`/`#`
replaced by `[-a-zA-Z0-9_]+` (faithful when prefix and name contain no
other regexp metacharacters).  The `\A` anchor is built into the match
semantics below; there is no end anchor. -/
def buildPattern (pfx name : List Char) : List PatTok :=
  (pfx ++ '.' :: name).map fun c =>
    if c = '*' ∨ c = '#' then PatTok.classPlus else PatTok.lit c

/-- `re.MatchString k` for the start-anchored, end-unanchored pattern:
does some prefix of `k` match the whole token list? -/
def matchToks : List PatTok → List Char → Bool
  | [], _ => true
  | .lit _ :: _, [] => false
  | .lit c :: ts, x :: ks => c = x && matchToks ts ks
  | .classPlus :: ts, ks =>
    (List.range ks.length).any fun i =>
      (ks.take (i + 1)).all isClassChar && matchToks ts (ks.drop (i + 1))

/-- Whole-string match of the token list (used to state what "a match
of the pattern" is). -/
def matchFull : List PatTok → List Char → Bool
  | [], [] => true
  | [], _ :: _ => false
  | .lit _ :: _, [] => false
  | .lit c :: ts, x :: ks => c = x && matchFull ts ks
  | .classPlus :: ts, ks =>
    (List.range ks.length).any fun i =>
      (ks.take (i + 1)).all isClassChar && matchFull ts (ks.drop (i + 1))

/-- `formatValuesWithWildcard`: every observed key matching the
compiled pattern is forwarded to `formatValues` as its own concrete
metric (with empty prefix), threading the current value map.  Returns
the emitted lines and the final map. -/
def formatValuesWithWildcard (pluginKey pfx : List Char) (metric : Metrics)
    (metricValues lastMetricValues : PluginValues) : List Emission × GoMap :=
  let pat := buildPattern pfx metric.Name
  (metricValues.Values.map Prod.fst).foldl
    (fun acc k =>
      if matchToks pat k = true then
        match formatValues pluginKey [] { metric with Name := k }
            ⟨acc.2, metricValues.Timestamp⟩ lastMetricValues with
        | (some e, vs) => (acc.1 ++ [e], vs)
        | (none, vs) => (acc.1, vs)
      else acc)
    (([], metricValues.Values) : List Emission × GoMap)

/-! ## Helper lemmas -/

theorem spanP_nil_of (p : Char → Bool) (c : Char) (r : List Char) (h : p c = false) :
    spanP p (c :: r) = ([], c :: r) := by
  simp [spanP, h]

theorem spanP_all (p : Char → Bool) :
    ∀ a : List Char, (∀ c ∈ a, p c = true) → spanP p a = (a, []) := by
  intro a
  induction a with
  | nil => intro _; rfl
  | cons x xs ih =>
    intro h
    have hx := h x (by simp)
    simp [spanP, hx, ih fun c hc => h c (by simp [hc])]

theorem spanP_eq_of (p : Char → Bool) :
    ∀ (a : List Char) (b : Char) (r : List Char), (∀ c ∈ a, p c = true) → p b = false →
      spanP p (a ++ b :: r) = (a, b :: r) := by
  intro a
  induction a with
  | nil => intro b r _ hb; simpa using spanP_nil_of p b r hb
  | cons x xs ih =>
    intro b r ha hb
    have hx := ha x (by simp)
    simp [spanP, hx, ih b r (fun c hc => ha c (by simp [hc])) hb]

theorem expectLit_append : ∀ l r : List Char, expectLit l (l ++ r) = some r := by
  intro l
  induction l with
  | nil => intro r; rfl
  | cons c cs ih => intro r; simp [expectLit, ih]

theorem natToStrAux_zero : ∀ fuel, natToStrAux fuel 0 = [] := by
  intro fuel
  cases fuel with
  | zero => rfl
  | succ f => simp [natToStrAux]

theorem digitChar_spec : ∀ d, d < 10 → isDigitChar (digitChar d) = true ∧ (digitChar d).toNat = 48 + d := by
  decide

theorem natToStrAux_spec : ∀ fuel n : Nat, 0 < n → n ≤ fuel →
    ((∀ c ∈ natToStrAux fuel n, isDigitChar c = true) ∧ natToStrAux fuel n ≠ [] ∧
      ∀ acc : Nat, (natToStrAux fuel n).foldl (fun a c => a * 10 + (c.toNat - 48)) acc
        = acc * 10 ^ (natToStrAux fuel n).length + n) := by
  intro fuel
  induction fuel with
  | zero => intro n h1 h2; omega
  | succ f ih =>
    intro n h1 h2
    have hn : ¬ n = 0 := by omega
    rw [natToStrAux, if_neg hn]
    rcases Nat.eq_zero_or_pos (n / 10) with h10 | h10
    · have hlt : n < 10 := by omega
      have hmod : n % 10 = n := Nat.mod_eq_of_lt hlt
      have hd := digitChar_spec n hlt
      rw [h10, natToStrAux_zero, hmod]
      refine ⟨?_, by simp, ?_⟩
      · intro c hc
        simp at hc
        rw [hc]; exact hd.1
      · intro acc
        simp [hd.2]
    · have hdivle : n / 10 ≤ f := by
        have := Nat.div_lt_self h1 (by norm_num : 1 < 10)
        omega
      obtain ⟨hall, hne, hfold⟩ := ih (n / 10) h10 hdivle
      have hd := digitChar_spec (n % 10) (Nat.mod_lt _ (by norm_num))
      refine ⟨?_, by simp, ?_⟩
      · intro c hc
        simp at hc
        rcases hc with hc | hc
        · exact hall c hc
        · rw [hc]; exact hd.1
      · intro acc
        rw [List.foldl_append]
        simp [hfold acc, hd.2, List.length_append, pow_succ]
        have := Nat.div_add_mod n 10
        ring_nf
        omega

theorem natToStr_spec (n : Nat) :
    (∀ c ∈ natToStr n, isDigitChar c = true) ∧ natToStr n ≠ [] ∧ parseDigits (natToStr n) = n := by
  rcases Nat.eq_zero_or_pos n with h | h
  · subst h; refine ⟨?_, by simp [natToStr], by decide⟩
    intro c hc
    simp [natToStr] at hc
    rw [hc]; decide
  · have hspec := natToStrAux_spec (n + 1) n h (by omega)
    rw [natToStr, if_neg (by omega)]
    exact ⟨hspec.1, hspec.2.1, by simpa [parseDigits] using hspec.2.2 0⟩

theorem natToStrAux_len : ∀ fuel k n : Nat, n ≤ fuel → n < 10 ^ k →
    (natToStrAux fuel n).length ≤ k := by
  intro fuel
  induction fuel with
  | zero => intro k n h1 _; interval_cases n; simp [natToStrAux]
  | succ f ih =>
    intro k n h1 h2
    rcases Nat.eq_zero_or_pos n with h | h
    · subst h; simp [natToStrAux_zero]
    · rw [natToStrAux, if_neg (by omega)]
      cases k with
      | zero => simp at h2; omega
      | succ k' =>
        have hdivle : n / 10 ≤ f := by
          have := Nat.div_lt_self h (by norm_num : 1 < 10)
          omega
        have hdlt : n / 10 < 10 ^ k' := by
          rw [Nat.div_lt_iff_lt_mul (by norm_num : 0 < 10)]
          calc n < 10 ^ (k' + 1) := h2
          _ = 10 ^ k' * 10 := by ring
        have := ih k' (n / 10) hdivle hdlt
        simp [List.length_append]
        omega

theorem natToStr_len13 (n : Nat) (h : n ≤ 999) :
    1 ≤ (natToStr n).length ∧ (natToStr n).length ≤ 3 := by
  rcases Nat.eq_zero_or_pos n with h0 | h0
  · subst h0; constructor <;> simp [natToStr]
  · have hne := (natToStr_spec n).2.1
    have hlen : (natToStr n).length ≤ 3 := by
      rw [natToStr, if_neg (by omega)]
      refine natToStrAux_len (n + 1) 3 n (by omega) ?_
      have h3 : (10 : Nat) ^ 3 = 1000 := by norm_num
      omega
    refine ⟨?_, hlen⟩
    cases hh : natToStr n with
    | nil => exact absurd hh hne
    | cons a b => simp [hh]

theorem natToStr_no_char (n : Nat) (c : Char) (hc : isDigitChar c = false) :
    ∀ x ∈ natToStr n, x ≠ c := by
  intro x hx he
  have := (natToStr_spec n).1 x hx
  rw [he, hc] at this
  exact Bool.false_ne_true this

theorem parseUintGo_natToStr (n maxVal : Nat) (h : n ≤ maxVal) :
    parseUintGo (natToStr n) maxVal = (n, none) := by
  obtain ⟨hall, hne, hval⟩ := natToStr_spec n
  rw [parseUintGo]
  rw [if_neg (by simpa [List.isEmpty_iff] using hne)]
  rw [if_pos (by simpa [List.all_eq_true] using hall)]
  simp only [hval]
  rw [if_neg (by omega)]

theorem splitFirst_append (sep : Char) :
    ∀ (a b : List Char), (∀ c ∈ a, c ≠ sep) → splitFirst sep (a ++ sep :: b) = some (a, b) := by
  intro a
  induction a with
  | nil => intro b _; simp [splitFirst]
  | cons x xs ih =>
    intro b ha
    have hx : ¬ x = sep := ha x (by simp)
    simp [splitFirst, hx, ih b fun c hc => ha c (by simp [hc])]

/-- Shared round-trip core: parsing the dotted rendering of a version
whose components fit uint32 recovers the version. -/
theorem parseVersion_render (v : Version) (h1 : v.Major ≤ maxUint32)
    (h2 : v.Minor ≤ maxUint32) (h3 : v.Patch ≤ maxUint32) :
    ParseVersion (Version.String v) = some v := by
  have hM := natToStr_no_char v.Major '.' (by decide)
  have hm := natToStr_no_char v.Minor '.' (by decide)
  have hshape : Version.String v =
      natToStr v.Major ++ '.' :: (natToStr v.Minor ++ '.' :: natToStr v.Patch) := by
    simp [Version.String]
  have s1 : splitFirst '.' (Version.String v) =
      some (natToStr v.Major, natToStr v.Minor ++ '.' :: natToStr v.Patch) := by
    rw [hshape]
    exact splitFirst_append '.' _ _ hM
  have s2 : splitFirst '.' (natToStr v.Minor ++ '.' :: natToStr v.Patch) =
      some (natToStr v.Minor, natToStr v.Patch) := splitFirst_append '.' _ _ hm
  simp [ParseVersion, splitN3, s1, s2, parseUintGo_natToStr _ _ h1,
    parseUintGo_natToStr _ _ h2, parseUintGo_natToStr _ _ h3]

theorem expectLit_ne_head (c : Char) (l : List Char) (x : Char) (s : List Char)
    (h : ¬ x = c) : expectLit (c :: l) (x :: s) = none := by
  simp [expectLit, h]

theorem word1_render (a : List Char) (b : Char) (r : List Char) (ha1 : a ≠ [])
    (ha2 : ∀ c ∈ a, isWordChar c = true) (hb : isWordChar b = false) :
    word1 (a ++ b :: r) = some (a, b :: r) := by
  rw [word1, spanP_eq_of _ a b r ha2 hb]
  simp [List.isEmpty_iff, ha1]

theorem ws1_single (b : Char) (r : List Char) (hb : isSpaceChar b = false) :
    ws1 (' ' :: b :: r) = some (b :: r) := by
  have : (' ' :: b :: r) = [' '] ++ b :: r := rfl
  rw [ws1, this, spanP_eq_of _ [' '] b r (by intro c hc; simp at hc; rw [hc]; decide) hb]
  simp

theorem digits13_render (n : Nat) (hn : n ≤ 999) (b : Char) (r : List Char)
    (hb : isDigitChar b = false) :
    digits13 (natToStr n ++ b :: r) = some (natToStr n, b :: r) := by
  rw [digits13, spanP_eq_of _ (natToStr n) b r (natToStr_spec n).1 hb]
  have hl := natToStr_len13 n hn
  have h0 : ¬ (natToStr n).length = 0 := by omega
  have h3 : ¬ (natToStr n).length > 3 := by omega
  simp [h0, h3]

theorem upToLastRBracket_render (g : List Char) (hg1 : g ≠ [])
    (hg2 : ∀ c ∈ g, ¬ c = '\n') : upToLastRBracket (g ++ [']']) = some g := by
  have hall : spanP (fun c => !(c = '\n')) (g ++ [']']) = (g ++ [']'], []) := by
    refine spanP_all _ _ ?_
    intro c hc
    simp at hc
    rcases hc with hc | hc
    · simp [hg2 c hc]
    · rw [hc]; decide
  have hrev : (g ++ [']']).reverse = ']' :: g.reverse := by simp
  rw [upToLastRBracket, hall]
  simp only [hrev]
  rw [spanP_nil_of _ ']' g.reverse (by decide)]
  simp [List.isEmpty_iff, hg1]

theorem matchHead_render (key ty rest : List Char) (hk1 : key ≠ [])
    (hk2 : ∀ c ∈ key, isWordChar c = true)
    (ht : ty = TypeChecker ∨ ty = TypeMetrics ∨ ty = TypeMetadata) :
    matchHead ("idpc-plugin-".toList ++ (key ++ '-' :: (ty ++ rest))) =
      some (key, ty, rest) := by
  have hcons : "idpc-plugin-".toList ++ (key ++ '-' :: (ty ++ rest)) =
      'i' :: ("dpc-plugin-".toList ++ (key ++ '-' :: (ty ++ rest))) := rfl
  have hspan : (spanP isSpaceChar ("idpc-plugin-".toList ++ (key ++ '-' :: (ty ++ rest)))).2 =
      "idpc-plugin-".toList ++ (key ++ '-' :: (ty ++ rest)) := by
    rw [hcons, spanP_nil_of _ _ _ (by decide)]
  have hword : word1 (key ++ '-' :: (ty ++ rest)) = some (key, '-' :: (ty ++ rest)) :=
    word1_render key '-' (ty ++ rest) hk1 hk2 (by decide)
  have hdash : expectLit ['-'] ('-' :: (ty ++ rest)) = some (ty ++ rest) :=
    expectLit_append ['-'] (ty ++ rest)
  rw [matchHead, hspan]
  rcases ht with rfl | rfl | rfl
  · simp only [expectLit_append, Option.bind_eq_bind, Option.some_bind, hword, hdash]
  · have hne : expectLit TypeChecker (TypeMetrics ++ rest) = none := by
      have h1 : TypeChecker = 'c' :: "hecker".toList := rfl
      have h2 : TypeMetrics ++ rest = 'm' :: ("etrics".toList ++ rest) := rfl
      rw [h1, h2]
      exact expectLit_ne_head _ _ _ _ (by decide)
    simp only [expectLit_append, Option.bind_eq_bind, Option.some_bind, hword, hdash, hne]
  · have hne1 : expectLit TypeChecker (TypeMetadata ++ rest) = none := by
      have h1 : TypeChecker = 'c' :: "hecker".toList := rfl
      have h2 : TypeMetadata ++ rest = 'm' :: ("etadata".toList ++ rest) := rfl
      rw [h1, h2]
      exact expectLit_ne_head _ _ _ _ (by decide)
    have hne2 : expectLit TypeMetrics (TypeMetadata ++ rest) = none := by
      have h1 : TypeMetrics = 'm' :: 'e' :: 't' :: 'r' :: "ics".toList := rfl
      have h2 : TypeMetadata ++ rest =
          'm' :: 'e' :: 't' :: 'a' :: ("data".toList ++ rest) := rfl
      rw [h1, h2, expectLit, if_pos rfl, expectLit, if_pos rfl, expectLit, if_pos rfl]
      exact expectLit_ne_head _ _ _ _ (by decide)
    simp only [expectLit_append, Option.bind_eq_bind, Option.some_bind, hword, hdash,
      hne1, hne2]

theorem digit_not_space (c : Char) (h : isDigitChar c = true) : isSpaceChar c = false := by
  by_contra hs
  rw [Bool.not_eq_false] at hs
  simp [isSpaceChar] at hs
  rcases hs with ((((rfl | rfl) | rfl) | rfl) | rfl) | rfl <;> exact absurd h (by decide)

theorem word_not_space (c : Char) (h : isWordChar c = true) : isSpaceChar c = false := by
  by_contra hs
  rw [Bool.not_eq_false] at hs
  simp [isSpaceChar] at hs
  rcases hs with ((((rfl | rfl) | rfl) | rfl) | rfl) | rfl <;> exact absurd h (by decide)

theorem matchVersionPart_render (v : Version) (hM : v.Major ≤ 999) (hm : v.Minor ≤ 999)
    (hp : v.Patch ≤ 999) (rest : List Char) :
    matchVersionPart (" version ".toList ++ (natToStr v.Major ++ '.' ::
      (natToStr v.Minor ++ '.' :: (natToStr v.Patch ++ ' ' :: rest)))) =
    some (Version.String v, ' ' :: rest) := by
  obtain ⟨c0, cs, hc0⟩ := List.exists_cons_of_ne_nil (natToStr_spec v.Major).2.1
  have hc0d : isDigitChar c0 = true := (natToStr_spec v.Major).1 c0 (by rw [hc0]; simp)
  have h1 : " version ".toList ++ (natToStr v.Major ++ '.' ::
      (natToStr v.Minor ++ '.' :: (natToStr v.Patch ++ ' ' :: rest))) =
      ' ' :: ('v' :: ("ersion ".toList ++ (natToStr v.Major ++ '.' ::
        (natToStr v.Minor ++ '.' :: (natToStr v.Patch ++ ' ' :: rest))))) := rfl
  have h2 : 'v' :: ("ersion ".toList ++ (natToStr v.Major ++ '.' ::
      (natToStr v.Minor ++ '.' :: (natToStr v.Patch ++ ' ' :: rest)))) =
      "version".toList ++ (' ' :: (natToStr v.Major ++ '.' ::
        (natToStr v.Minor ++ '.' :: (natToStr v.Patch ++ ' ' :: rest)))) := rfl
  have hws2 : ws1 (' ' :: (natToStr v.Major ++ '.' ::
      (natToStr v.Minor ++ '.' :: (natToStr v.Patch ++ ' ' :: rest)))) =
      some (natToStr v.Major ++ '.' ::
        (natToStr v.Minor ++ '.' :: (natToStr v.Patch ++ ' ' :: rest))) := by
    rw [hc0, List.cons_append]
    exact ws1_single c0 _ (digit_not_space c0 hc0d)
  have hd1 := digits13_render v.Major hM '.'
    (natToStr v.Minor ++ '.' :: (natToStr v.Patch ++ ' ' :: rest)) (by decide)
  have hd2 := digits13_render v.Minor hm '.' (natToStr v.Patch ++ ' ' :: rest) (by decide)
  have hd3 := digits13_render v.Patch hp ' ' rest (by decide)
  have hdot1 : expectLit ['.'] ('.' :: (natToStr v.Minor ++ '.' ::
      (natToStr v.Patch ++ ' ' :: rest))) =
      some (natToStr v.Minor ++ '.' :: (natToStr v.Patch ++ ' ' :: rest)) :=
    expectLit_append ['.'] _
  have hdot2 : expectLit ['.'] ('.' :: (natToStr v.Patch ++ ' ' :: rest)) =
      some (natToStr v.Patch ++ ' ' :: rest) := expectLit_append ['.'] _
  rw [matchVersionPart, h1, ws1_single 'v' _ (by decide), h2]
  simp only [expectLit_append, Option.bind_eq_bind, Option.some_bind, hws2, hd1, hd2, hd3,
    hdot1, hdot2, Version.String]

theorem matchRevPart_render (rev : List Char) (h1 : rev ≠ [])
    (h2 : ∀ c ∈ rev, isWordChar c = true) (rest : List Char) :
    matchRevPart (' ' :: ("(rev ".toList ++ (rev ++ ')' :: rest))) = some (rev, rest) := by
  obtain ⟨c0, cs, hc0⟩ := List.exists_cons_of_ne_nil h1
  have hc0w : isWordChar c0 = true := h2 c0 (by rw [hc0]; simp)
  have hb : "(rev ".toList ++ (rev ++ ')' :: rest) =
      '(' :: ("rev ".toList ++ (rev ++ ')' :: rest)) := rfl
  have hc : '(' :: ("rev ".toList ++ (rev ++ ')' :: rest)) =
      "(rev".toList ++ (' ' :: (rev ++ ')' :: rest)) := rfl
  have hws2 : ws1 (' ' :: (rev ++ ')' :: rest)) = some (rev ++ ')' :: rest) := by
    rw [hc0, List.cons_append]
    exact ws1_single c0 _ (word_not_space c0 hc0w)
  have hword : word1 (rev ++ ')' :: rest) = some (rev, ')' :: rest) :=
    word1_render rev ')' rest h1 h2 (by decide)
  have hrp : expectLit [')'] (')' :: rest) = some rest := expectLit_append [')'] rest
  rw [matchRevPart, hb, ws1_single '(' _ (by decide)]
  simp only [Option.bind_eq_bind, Option.some_bind]
  rw [hc]
  simp only [expectLit_append, Option.bind_eq_bind, Option.some_bind, hws2, hword, hrp]

theorem matchBuildPart_render (os arch gover : List Char) (ho1 : os ≠ [])
    (ho2 : ∀ c ∈ os, isWordChar c = true) (ha1 : arch ≠ [])
    (ha2 : ∀ c ∈ arch, isWordChar c = true) (hg1 : gover ≠ [])
    (hg2 : ∀ c ∈ gover, ¬ c = '\n')
    (hg3 : ∀ c, gover.head? = some c → isSpaceChar c = false) :
    matchBuildPart (' ' :: ('[' :: (os ++ ' ' :: (arch ++ ' ' :: (gover ++ [']']))))) =
      some (os, arch, gover) := by
  obtain ⟨a0, as0, ha0⟩ := List.exists_cons_of_ne_nil ha1
  have ha0w : isWordChar a0 = true := ha2 a0 (by rw [ha0]; simp)
  obtain ⟨g0, gs0, hg0⟩ := List.exists_cons_of_ne_nil hg1
  have hg0s : isSpaceChar g0 = false := hg3 g0 (by rw [hg0]; rfl)
  have hbr : expectLit ['['] ('[' :: (os ++ ' ' :: (arch ++ ' ' :: (gover ++ [']'])))) =
      some (os ++ ' ' :: (arch ++ ' ' :: (gover ++ [']']))) := expectLit_append ['['] _
  have hword1 : word1 (os ++ ' ' :: (arch ++ ' ' :: (gover ++ [']']))) =
      some (os, ' ' :: (arch ++ ' ' :: (gover ++ [']'])))  :=
    word1_render os ' ' _ ho1 ho2 (by decide)
  have hws2 : ws1 (' ' :: (arch ++ ' ' :: (gover ++ [']']))) =
      some (arch ++ ' ' :: (gover ++ [']'])) := by
    rw [ha0, List.cons_append]
    exact ws1_single a0 _ (word_not_space a0 ha0w)
  have hword2 : word1 (arch ++ ' ' :: (gover ++ [']'])) =
      some (arch, ' ' :: (gover ++ [']'])) := word1_render arch ' ' _ ha1 ha2 (by decide)
  have hws3 : ws1 (' ' :: (gover ++ [']'])) = some (gover ++ [']']) := by
    rw [hg0, List.cons_append]
    exact ws1_single g0 _ hg0s
  have hlast : upToLastRBracket (gover ++ [']']) = some gover :=
    upToLastRBracket_render gover hg1 hg2
  rw [matchBuildPart, ws1_single '[' _ (by decide)]
  simp only [Option.bind_eq_bind, Option.some_bind, hbr, hword1, hws2, hword2, hws3, hlast]

/-- Shared round-trip core for the version-line wire contract: the
canonical line of a descriptor whose key, revision, OS and architecture
are non-empty word strings, whose type is one of the three plugin
types, whose version components are at most 999 (three digits), and
whose runtime-version string is non-empty, newline-free and does not
start with whitespace, parses back to the descriptor. -/
theorem parseVersionCommand_render (m : Meta) (hk1 : m.Key ≠ [])
    (hk2 : ∀ c ∈ m.Key, isWordChar c = true)
    (ht : m.Typ = TypeChecker ∨ m.Typ = TypeMetrics ∨ m.Typ = TypeMetadata)
    (hM : m.Version.Major ≤ 999) (hmi : m.Version.Minor ≤ 999) (hp : m.Version.Patch ≤ 999)
    (hr1 : m.Revision ≠ []) (hr2 : ∀ c ∈ m.Revision, isWordChar c = true)
    (ho1 : m.GOOS ≠ []) (ho2 : ∀ c ∈ m.GOOS, isWordChar c = true)
    (ha1 : m.GOARCH ≠ []) (ha2 : ∀ c ∈ m.GOARCH, isWordChar c = true)
    (hg1 : m.GOVersion ≠ []) (hg2 : ∀ c ∈ m.GOVersion, ¬ c = '\n')
    (hg3 : ∀ c, m.GOVersion.head? = some c → isSpaceChar c = false) :
    ParseVersionCommand (Meta.String m) = m := by
  have e1 : "idpc-plugin-".toList =
      ['i', 'd', 'p', 'c', '-', 'p', 'l', 'u', 'g', 'i', 'n', '-'] := rfl
  have e2 : " version ".toList = [' ', 'v', 'e', 'r', 's', 'i', 'o', 'n', ' '] := rfl
  have e3 : " (rev ".toList = [' ', '(', 'r', 'e', 'v', ' '] := rfl
  have e4 : "(rev ".toList = ['(', 'r', 'e', 'v', ' '] := rfl
  have e5 : ") [".toList = [')', ' ', '['] := rfl
  have e6 : "]".toList = [']'] := rfl
  have hstr : Meta.String m = "idpc-plugin-".toList ++ (m.Key ++ '-' :: (m.Typ ++
      (" version ".toList ++ (natToStr m.Version.Major ++ '.' ::
        (natToStr m.Version.Minor ++ '.' :: (natToStr m.Version.Patch ++ ' ' ::
          ("(rev ".toList ++ (m.Revision ++ ')' :: (' ' :: ('[' :: (m.GOOS ++ ' ' ::
            (m.GOARCH ++ ' ' :: (m.GOVersion ++ [']']))))))))))))) := by
    rw [Meta.String, Version.String]
    simp [e1, e2, e3, e4, e5, e6]
  have hver := matchVersionPart_render m.Version hM hmi hp
    ("(rev ".toList ++ (m.Revision ++ ')' :: (' ' :: ('[' :: (m.GOOS ++ ' ' ::
      (m.GOARCH ++ ' ' :: (m.GOVersion ++ [']'])))))))
  have hrev := matchRevPart_render m.Revision hr1 hr2
    (' ' :: ('[' :: (m.GOOS ++ ' ' :: (m.GOARCH ++ ' ' :: (m.GOVersion ++ [']'])))))
  have hbuild := matchBuildPart_render m.GOOS m.GOARCH m.GOVersion ho1 ho2 ha1 ha2 hg1 hg2 hg3
  have hhead := matchHead_render m.Key m.Typ
    (" version ".toList ++ (natToStr m.Version.Major ++ '.' ::
      (natToStr m.Version.Minor ++ '.' :: (natToStr m.Version.Patch ++ ' ' ::
        ("(rev ".toList ++ (m.Revision ++ ')' :: (' ' :: ('[' :: (m.GOOS ++ ' ' ::
          (m.GOARCH ++ ' ' :: (m.GOVersion ++ [']'])))))))))))
    hk1 hk2 ht
  have hregex : matchVersionRegex (Meta.String m) = some
      ⟨m.Key, m.Typ, Version.String m.Version, m.Revision, m.GOOS, m.GOARCH, m.GOVersion⟩ := by
    rw [hstr, matchVersionRegex]
    simp only [Option.bind_eq_bind, Option.some_bind, hhead, hver, hrev, hbuild]
  have hpv : ParseVersion (Version.String m.Version) = some m.Version :=
    parseVersion_render m.Version (by simp [maxUint32]; omega)
      (by simp [maxUint32]; omega) (by simp [maxUint32]; omega)
  rw [ParseVersionCommand, hregex]
  simp [hpv]

/-! ## Claims about the Version and Descriptor models -/

/-- C8: for every Version whose three components fit in 32 bits,
`ParseVersion` applied to the dotted-decimal rendering
`major.minor.patch` succeeds and returns the same Version. -/
theorem c8_version_roundtrip (v : Version) (h1 : v.Major ≤ maxUint32)
    (h2 : v.Minor ≤ maxUint32) (h3 : v.Patch ≤ maxUint32) :
    ParseVersion (Version.String v) = some v :=
  parseVersion_render v h1 h2 h3

theorem c8_version_roundtrip_witness :
    ParseVersion (Version.String ⟨4294967295, 0, 7⟩) = some ⟨4294967295, 0, 7⟩ :=
  c8_version_roundtrip ⟨4294967295, 0, 7⟩ (by decide) (by decide) (by decide)

/-- C3 counterexample: the round-trip fails outside the regex's
shapes, in two different ways.  A descriptor with version major
component 1000 (four digits, rejected by `\d{1,3}`) parses to the
empty descriptor; a descriptor whose GOOS contains a space
("linux amd64") renders a line that the regex still matches with
shifted groups, so a non-empty but different descriptor comes back;
likewise a GOVersion with leading whitespace (" go1") comes back
without it. -/
theorem c3_roundtrip_counterexample :
    ParseVersionCommand (Meta.String ⟨"x".toList, TypeMetadata, ⟨1000, 0, 0⟩,
      "dev".toList, "linux".toList, "amd64".toList, "go1".toList⟩) = metaEmpty ∧
    (⟨"x".toList, TypeMetadata, ⟨1000, 0, 0⟩, "dev".toList, "linux".toList,
      "amd64".toList, "go1".toList⟩ : Meta) ≠ metaEmpty ∧
    ParseVersionCommand (Meta.String ⟨"x".toList, TypeMetadata, ⟨1, 2, 3⟩,
      "dev".toList, "linux amd64".toList, "amd64".toList, "go1".toList⟩) ≠
      ⟨"x".toList, TypeMetadata, ⟨1, 2, 3⟩, "dev".toList, "linux amd64".toList,
        "amd64".toList, "go1".toList⟩ ∧
    ParseVersionCommand (Meta.String ⟨"x".toList, TypeMetadata, ⟨1, 2, 3⟩,
      "dev".toList, "linux amd64".toList, "amd64".toList, "go1".toList⟩) ≠ metaEmpty ∧
    ParseVersionCommand (Meta.String ⟨"x".toList, TypeMetadata, ⟨1, 2, 3⟩,
      "dev".toList, "linux".toList, "amd64".toList, " go1".toList⟩) ≠
      ⟨"x".toList, TypeMetadata, ⟨1, 2, 3⟩, "dev".toList, "linux".toList,
        "amd64".toList, " go1".toList⟩ := by
  refine ⟨by decide, by decide, by decide, by decide, by decide⟩

/-- C3 (amended): the version-line wire contract round-trips for every
descriptor whose key, revision, OS and architecture are non-empty
`\w`-strings, whose type is checker/metrics/metadata, whose version
components are at most 999, and whose runtime-version string is
non-empty, newline-free and does not start with whitespace. -/
theorem c3_roundtrip_amended (m : Meta) (hk1 : m.Key ≠ [])
    (hk2 : ∀ c ∈ m.Key, isWordChar c = true)
    (ht : m.Typ = TypeChecker ∨ m.Typ = TypeMetrics ∨ m.Typ = TypeMetadata)
    (hM : m.Version.Major ≤ 999) (hmi : m.Version.Minor ≤ 999) (hp : m.Version.Patch ≤ 999)
    (hr1 : m.Revision ≠ []) (hr2 : ∀ c ∈ m.Revision, isWordChar c = true)
    (ho1 : m.GOOS ≠ []) (ho2 : ∀ c ∈ m.GOOS, isWordChar c = true)
    (ha1 : m.GOARCH ≠ []) (ha2 : ∀ c ∈ m.GOARCH, isWordChar c = true)
    (hg1 : m.GOVersion ≠ []) (hg2 : ∀ c ∈ m.GOVersion, ¬ c = '\n')
    (hg3 : ∀ c, m.GOVersion.head? = some c → isSpaceChar c = false) :
    ParseVersionCommand (Meta.String m) = m :=
  parseVersionCommand_render m hk1 hk2 ht hM hmi hp hr1 hr2 ho1 ho2 ha1 ha2 hg1 hg2 hg3

theorem c3_roundtrip_amended_witness :
    ParseVersionCommand (Meta.String ⟨"redis".toList, TypeMetrics, ⟨0, 0, 1⟩,
      "dev".toList, "windows".toList, "amd64".toList, "go1.16.5".toList⟩) =
    ⟨"redis".toList, TypeMetrics, ⟨0, 0, 1⟩, "dev".toList, "windows".toList,
      "amd64".toList, "go1.16.5".toList⟩ :=
  c3_roundtrip_amended ⟨"redis".toList, TypeMetrics, ⟨0, 0, 1⟩, "dev".toList,
      "windows".toList, "amd64".toList, "go1.16.5".toList⟩
    (by decide) (by decide) (Or.inr (Or.inl rfl)) (by decide) (by decide) (by decide)
    (by decide) (by decide) (by decide) (by decide) (by decide) (by decide) (by decide)
    (by decide) (by intro c hc; simp at hc; subst hc; decide)

/-! ## Claims about the Rate Engine -/

/-- C5: whenever the Unix-second duration exceeds 600, all three Rate
Engine variants fail with the duration error, regardless of the
values, the previous rate, and the timestamps themselves. -/
theorem c5_duration_guard (value lastValue : GoFloat) (a b : Nat) (ld1 ld2 : GoFloat)
    (now lastTime : ℤ) (h : now - lastTime > 600) :
    calcDiff value now lastValue lastTime = .error .durationTooLong ∧
    calcDiffUint32 a now b lastTime ld1 = .error .durationTooLong ∧
    calcDiffUint64 a now b lastTime ld2 = .error .durationTooLong := by
  refine ⟨?_, ?_, ?_⟩ <;> simp [calcDiff, calcDiffUint32, calcDiffUint64, h]

theorem c5_duration_guard_witness :
    calcDiff (.fin 5) 601 (.fin 1) 0 = .error .durationTooLong ∧
    calcDiffUint32 5 601 1 0 (.fin 0) = .error .durationTooLong ∧
    calcDiffUint64 5 601 1 0 (.fin 0) = .error .durationTooLong :=
  c5_duration_guard (.fin 5) (.fin 1) 5 1 (.fin 0) (.fin 0) 601 0 (by decide)

/-- C2 counterexample: the uint32 variant does not return the exact
per-minute rate of the unsigned difference.  With current = 2^31,
previous = 0 and a 60 second duration the product `(2^31)*60` wraps to
0 modulo 2^32, so the code returns rate 0, while the exact value
`(2^31 - 0)*60/60` is 2^31 ≠ 0. -/
theorem c2_exact_rate_counterexample :
    calcDiffUint32 2147483648 60 0 0 (.fin 0) = .ok (.fin 0) ∧
    ((2147483648 - 0 : ℚ) * 60 / 60 : ℚ) = 2147483648 ∧ (0 : ℚ) ≠ 2147483648 := by
  refine ⟨?_, by norm_num, by norm_num⟩
  have hnum : ((2147483648 + 4294967296 - 0) % 4294967296 * 60) % 4294967296 = 0 := by
    norm_num
  norm_num [calcDiffUint32, hnum, GoFloat.div]

/-- C2 (amended): for both unsigned variants, with 0 < duration ≤ 600
seconds and previous ≤ current (values in range), the product
`(current - previous) * 60` is computed in word arithmetic and wraps
modulo 2^w (w = 32 resp. 64).  Whenever the duration divides the
wrapped product — so that the float64 quotient is an exact integer
below 2^53 — and, for the uint64 variant, the wrapped product itself
is below 2^53 (so its float64 conversion is exact), the value returned
is exactly `((current - previous) * 60 mod 2^w) / duration`. -/
theorem c2_wrapped_rate (a32 b32 a64 b64 : Nat) (now lastTime : ℤ) (ld1 ld2 : GoFloat)
    (h32v : a32 < 4294967296) (h32l : b32 ≤ a32)
    (h64v : a64 < 18446744073709551616) (h64l : b64 ≤ a64)
    (h1 : 0 < now - lastTime) (h2 : now - lastTime ≤ 600)
    (hx32 : (now - lastTime) ∣ (((a32 - b32) * 60 % 4294967296 : Nat) : ℤ))
    (hx64 : (now - lastTime) ∣ (((a64 - b64) * 60 % 18446744073709551616 : Nat) : ℤ))
    (hf64 : (a64 - b64) * 60 % 18446744073709551616 < 9007199254740992) :
    calcDiffUint32 a32 now b32 lastTime ld1 =
      .ok (.fin (((a32 - b32) * 60 % 4294967296 : Nat) / ((now - lastTime : ℤ) : ℚ))) ∧
    calcDiffUint64 a64 now b64 lastTime ld2 =
      .ok (.fin (((a64 - b64) * 60 % 18446744073709551616 : Nat) /
        ((now - lastTime : ℤ) : ℚ))) := by
  have h600 : ¬ (now - lastTime > 600) := by omega
  have hd : (now : ℚ) - (lastTime : ℚ) ≠ 0 := by
    have h0 : now - lastTime ≠ 0 := by omega
    exact_mod_cast h0
  have hnum32 : (a32 + 4294967296 - b32) % 4294967296 = a32 - b32 := by omega
  have hnum64 : (a64 + 18446744073709551616 - b64) % 18446744073709551616 = a64 - b64 := by
    omega
  constructor
  · simp [calcDiffUint32, h600, hnum32, GoFloat.div, hd, h32l]
  · simp [calcDiffUint64, h600, hnum64, GoFloat.div, hd, h64l]

theorem c2_wrapped_rate_witness :
    calcDiffUint32 10 60 4 0 (.fin 0) =
      .ok (.fin (((10 - 4) * 60 % 4294967296 : Nat) / ((60 - 0 : ℤ) : ℚ))) ∧
    calcDiffUint64 10 60 4 0 (.fin 0) =
      .ok (.fin (((10 - 4) * 60 % 18446744073709551616 : Nat) / ((60 - 0 : ℤ) : ℚ))) :=
  c2_wrapped_rate 10 4 10 4 60 0 (.fin 0) (.fin 0) (by decide) (by decide) (by decide)
    (by decide) (by decide) (by decide) (by norm_num) (by norm_num) (by norm_num)

/-- C4: for the unsigned variants with 0 < duration ≤ 600 seconds, the
computation succeeds (returning the wrapped rate) if and only if
previous ≤ current or the computed rate is below ten times the
previously recorded rate, and otherwise fails with the counter-reset
error; in particular a decrease whose wrapped-difference rate is below
ten times the previous rate is accepted. -/
theorem c4_tolerance_band (a32 b32 a64 b64 : Nat) (now lastTime : ℤ) (ld1 ld2 : ℚ)
    (h32v : a32 < 4294967296) (h32l : b32 < 4294967296)
    (h64v : a64 < 18446744073709551616) (h64l : b64 < 18446744073709551616)
    (h1 : 0 < now - lastTime) (h2 : now - lastTime ≤ 600) :
    (calcDiffUint32 a32 now b32 lastTime (.fin ld1) =
      if b32 ≤ a32 ∨ (((a32 + 4294967296 - b32) % 4294967296 * 60) % 4294967296 : Nat) /
          ((now - lastTime : ℤ) : ℚ) < ld1 * 10 then
        .ok (.fin ((((a32 + 4294967296 - b32) % 4294967296 * 60) % 4294967296 : Nat) /
          ((now - lastTime : ℤ) : ℚ)))
      else .error .counterReset) ∧
    (calcDiffUint64 a64 now b64 lastTime (.fin ld2) =
      if b64 ≤ a64 ∨
          (((a64 + 18446744073709551616 - b64) % 18446744073709551616 * 60) %
            18446744073709551616 : Nat) / ((now - lastTime : ℤ) : ℚ) < ld2 * 10 then
        .ok (.fin ((((a64 + 18446744073709551616 - b64) % 18446744073709551616 * 60) %
          18446744073709551616 : Nat) / ((now - lastTime : ℤ) : ℚ)))
      else .error .counterReset) := by
  have h600 : ¬ (now - lastTime > 600) := by omega
  have hd : (now : ℚ) - (lastTime : ℚ) ≠ 0 := by
    have h0 : now - lastTime ≠ 0 := by omega
    exact_mod_cast h0
  constructor
  · simp [calcDiffUint32, h600, GoFloat.div, hd, GoFloat.mul, GoFloat.lt]
  · simp [calcDiffUint64, h600, GoFloat.div, hd, GoFloat.mul, GoFloat.lt]

theorem c4_tolerance_band_witness :
    (calcDiffUint32 10 60 4294967290 0 (.fin 2) =
      if 4294967290 ≤ 10 ∨ (((10 + 4294967296 - 4294967290) % 4294967296 * 60) %
          4294967296 : Nat) / ((60 - 0 : ℤ) : ℚ) < 2 * 10 then
        .ok (.fin ((((10 + 4294967296 - 4294967290) % 4294967296 * 60) %
          4294967296 : Nat) / ((60 - 0 : ℤ) : ℚ)))
      else .error .counterReset) ∧
    (calcDiffUint64 10 60 4 0 (.fin 2) =
      if 4 ≤ 10 ∨ (((10 + 18446744073709551616 - 4) % 18446744073709551616 * 60) %
          18446744073709551616 : Nat) / ((60 - 0 : ℤ) : ℚ) < 2 * 10 then
        .ok (.fin ((((10 + 18446744073709551616 - 4) % 18446744073709551616 * 60) %
          18446744073709551616 : Nat) / ((60 - 0 : ℤ) : ℚ)))
      else .error .counterReset) :=
  c4_tolerance_band 10 4294967290 10 4 60 0 2 2 (by decide) (by decide) (by decide)
    (by decide) (by decide) (by decide)

/-- C10: a zero or negative Unix-second duration is not rejected by the
duration guard and causes no division fault.  With equal timestamps
and previous ≤ current, the float64 variant succeeds with a NaN rate
(equal values) or a +infinity rate (increased value), and the unsigned
variants succeed as well; a negative duration with previous ≤ current
also succeeds. -/
theorem c10_degenerate_duration (v l : ℚ) (a b : Nat) (ld1 ld2 : GoFloat) (t dt : ℤ)
    (hvl : l ≤ v) (hab : b ≤ a) (ha : a < 4294967296) (hb : b < 4294967296)
    (hdt : dt ≤ 0) :
    calcDiff (.fin v) t (.fin l) t = .ok (if v = l then GoFloat.nan else GoFloat.inf true) ∧
    (calcDiffUint32 a t b t ld1).isOk = true ∧
    (calcDiffUint64 a t b t ld2).isOk = true ∧
    (calcDiff (.fin v) (t + dt) (.fin l) t).isOk = true := by
  have ht0 : ¬ ((t : ℤ) - t > 600) := by omega
  have htd : ¬ ((600 : ℤ) < dt) := by omega
  refine ⟨?_, ?_, ?_, ?_⟩
  · by_cases heq : v = l
    · subst heq
      simp [calcDiff, ht0, GoFloat.sub, GoFloat.mul, GoFloat.div, GoFloat.le]
    · have hlt : l < v := lt_of_le_of_ne hvl (Ne.symm heq)
      have hsub : v - l ≠ 0 := sub_ne_zero_of_ne heq
      have hpos : 0 < (v - l) * 60 := by
        have h0 : 0 < v - l := sub_pos.mpr hlt
        positivity
      simp [calcDiff, ht0, GoFloat.sub, GoFloat.mul, GoFloat.div, GoFloat.le, hvl, heq,
        hpos, mul_eq_zero, hsub]
  · simp [calcDiffUint32, ht0, hab, Except.isOk, Except.toBool]
  · simp [calcDiffUint64, ht0, hab, Except.isOk, Except.toBool]
  · simp [calcDiff, htd, GoFloat.sub, GoFloat.mul, GoFloat.div, GoFloat.le, hvl,
      Except.isOk, Except.toBool]

theorem c10_degenerate_duration_witness :
    calcDiff (.fin 2) 7 (.fin 1) 7 =
      .ok (if (2 : ℚ) = 1 then GoFloat.nan else GoFloat.inf true) ∧
    (calcDiffUint32 3 7 3 7 (.fin 0)).isOk = true ∧
    (calcDiffUint64 3 7 3 7 (.fin 0)).isOk = true ∧
    (calcDiff (.fin 2) (7 + -5) (.fin 1) 7).isOk = true :=
  c10_degenerate_duration 2 1 3 3 (.fin 0) (.fin 0) 7 (-5) (by norm_num) (by decide)
    (by decide) (by decide) (by decide)

/-! ## Claims about the State Store and the metadata cycle -/

theorem mapGet_mapSet_self (m : GoMap) (k : List Char) (v : GoValue) :
    mapGet (mapSet m k v) k = some v := by
  induction m with
  | nil => simp [mapSet, mapGet]
  | cons kv r ih =>
    by_cases h : kv.1 = k
    · simp [mapSet, mapGet, h]
    · simp [mapSet, mapGet, h, ih]

theorem mapGet_decodeMap (m : GoMap) (k : List Char) :
    mapGet (decodeMap m) k = (mapGet m k).map jsonNum := by
  induction m with
  | nil => simp [decodeMap, mapGet]
  | cons kv r ih =>
    by_cases h : kv.1 = k
    · simp [decodeMap, mapGet, h]
    · simpa [decodeMap, mapGet, h] using ih

theorem mapSet_ne_nil (m : GoMap) (k : List Char) (v : GoValue) : mapSet m k v ≠ [] := by
  cases m with
  | nil => simp [mapSet]
  | cons kv r =>
    by_cases h : kv.1 = k <;> simp [mapSet, h]

theorem mapEqB_nil_mapSet (m : GoMap) (k : List Char) (v : GoValue) :
    mapEqB [] (mapSet m k v) = false := by
  have h := mapSet_ne_nil m k v
  cases hh : mapSet m k v with
  | nil => exact absurd hh h
  | cons kv r => simp [mapEqB, hh]

theorem i64ofF_intCast (n : ℤ) : i64ofF (n : ℚ) = n := by
  simp [i64ofF, Rat.num_intCast, Rat.den_intCast]

theorem unixSec_intCast (n : ℤ) : unixSec (n : ℚ) = n := by
  simp [unixSec]

/-- C6: the guarded state load fails with the staleness error exactly
when `now` is less than one second past the loaded timestamp, and
otherwise returns the loaded observation set. -/
theorem c6_staleness_guard (file : Option GoMap) (now : ℚ) :
    (loadLastValuesSafe file now = .error .stateUpdated ↔
      now - (LoadLastValues file).Timestamp < 1) ∧
    (1 ≤ now - (LoadLastValues file).Timestamp →
      loadLastValuesSafe file now = .ok (LoadLastValues file)) := by
  refine ⟨⟨?_, ?_⟩, ?_⟩
  · intro h
    by_contra hc
    simp [loadLastValuesSafe, hc] at h
  · intro h
    simp [loadLastValuesSafe, h]
  · intro h
    have hc : ¬ (now - (LoadLastValues file).Timestamp < 1) := by linarith
    simp [loadLastValuesSafe, hc]

theorem c6_staleness_guard_witness :
    loadLastValuesSafe (some [(lastTimeKey, GoValue.f (.fin 100))]) (201 / 2) =
      .error .stateUpdated ∧
    loadLastValuesSafe (some [(lastTimeKey, GoValue.f (.fin 100))]) (203 / 2) =
      .ok (LoadLastValues (some [(lastTimeKey, GoValue.f (.fin 100))])) :=
  ⟨(c6_staleness_guard (some [(lastTimeKey, GoValue.f (.fin 100))]) (201 / 2)).1.mpr
      (by norm_num [LoadLastValues, decodeMap, jsonNum, mapGet, i64ofF]),
    (c6_staleness_guard (some [(lastTimeKey, GoValue.f (.fin 100))]) (203 / 2)).2
      (by norm_num [LoadLastValues, decodeMap, jsonNum, mapGet, i64ofF])⟩

/-- Evaluation of a first metadata cycle against an absent state file:
the metadata is printed, and the map (with the nil previous `_lastTime`
carried in, then the timestamp) is saved. -/
theorem outputMetadata_first (md : GoMap) (t1 : ℚ)
    (h : ¬ (t1 - zeroTimeUnix < 1)) :
    OutputMetadataValues md t1 ⟨none, [], 0⟩ =
      ⟨some (mapSet (mapSet md lastTimeKey .null) lastTimeKey (.i64 (unixSec t1))),
        [md], 1⟩ := by
  have hload : loadLastValuesSafe none t1 = .ok ⟨[], zeroTimeUnix⟩ := by
    rw [loadLastValuesSafe]
    simp only [LoadLastValues]
    rw [if_neg h]
  rw [OutputMetadataValues]
  simp only [hload, mapGet, Option.getD, mapEqB_nil_mapSet, SaveValues]
  simp [mapEqB_nil_mapSet]

/-- A stale guarded load makes the metadata cycle a no-op. -/
theorem outputMetadata_stale (md : GoMap) (now : ℚ) (w : MetaWorld)
    (h : loadLastValuesSafe w.file now = .error .stateUpdated) :
    OutputMetadataValues md now w = w := by
  rw [OutputMetadataValues]
  simp only [h]

/-- Loading within one second of a saved `_lastTime` trips the
staleness guard (the saved int64 decodes as a float64). -/
theorem loadSafe_after_save (F : GoMap) (t1 : ℤ) (now : ℚ)
    (hF : mapGet F lastTimeKey = some (.i64 t1)) (h : now - (t1 : ℚ) < 1) :
    loadLastValuesSafe (some F) now = .error .stateUpdated := by
  rw [loadLastValuesSafe]
  simp only [LoadLastValues, mapGet_decodeMap, hF, Option.map, jsonNum, i64ofF_intCast]
  rw [if_pos h]

/-- C1 counterexample: running the metadata cycle twice in immediate
succession (file initially absent, metadata `{a: "x"}`, second start
half a second after the first persisted its state) performs exactly one
state-file write, but the metadata JSON is printed only once: after
both runs stdout holds one object, not two — the second invocation
stops silently before printing. -/
theorem c1_metadata_twice_counterexample :
    (OutputMetadataValues [("a".toList, GoValue.str "x".toList)] (201 / 2)
      (OutputMetadataValues [("a".toList, GoValue.str "x".toList)] 100
        ⟨none, [], 0⟩)).writes = 1 ∧
    (OutputMetadataValues [("a".toList, GoValue.str "x".toList)] 100
      ⟨none, [], 0⟩).stdout = [[("a".toList, GoValue.str "x".toList)]] ∧
    (OutputMetadataValues [("a".toList, GoValue.str "x".toList)] (201 / 2)
      (OutputMetadataValues [("a".toList, GoValue.str "x".toList)] 100
        ⟨none, [], 0⟩)).stdout = [[("a".toList, GoValue.str "x".toList)]] := by
  have hw1 := outputMetadata_first [("a".toList, GoValue.str "x".toList)] 100
    (by norm_num [zeroTimeUnix])
  have hts : unixSec (100 : ℚ) = (100 : ℤ) := by
    have h0 : (100 : ℚ) = ((100 : ℤ) : ℚ) := by norm_num
    rw [h0, unixSec_intCast]
  have hstale := loadSafe_after_save
    (mapSet (mapSet [("a".toList, GoValue.str "x".toList)] lastTimeKey .null)
      lastTimeKey (.i64 (unixSec (100 : ℚ)))) (unixSec (100 : ℚ)) (201 / 2)
    (mapGet_mapSet_self _ _ _) (by rw [hts]; norm_num)
  have hw2 := outputMetadata_stale [("a".toList, GoValue.str "x".toList)] (201 / 2)
    ⟨some (mapSet (mapSet [("a".toList, GoValue.str "x".toList)] lastTimeKey .null)
      lastTimeKey (.i64 (unixSec (100 : ℚ)))), [[("a".toList, GoValue.str "x".toList)]], 1⟩
    hstale
  rw [hw1, hw2]
  exact ⟨rfl, rfl, rfl⟩

/-- C1 (amended): with unchanged metadata and the second invocation
starting less than one second after the first persisted its state, the
two cycles perform exactly one state-file write, and print the
metadata JSON only on the first invocation — the second cycle is
suppressed entirely by the staleness guard and produces no stdout. -/
theorem c1_metadata_second_run_suppressed (md : GoMap) (t1 : ℤ) (t2 : ℚ)
    (h1 : 1 ≤ t1) (h2 : t2 - (t1 : ℚ) < 1) :
    (OutputMetadataValues md t2 (OutputMetadataValues md (t1 : ℚ) ⟨none, [], 0⟩)).writes
      = 1 ∧
    (OutputMetadataValues md t2 (OutputMetadataValues md (t1 : ℚ) ⟨none, [], 0⟩)).stdout
      = [md] := by
  have hq1 : (1 : ℚ) ≤ (t1 : ℚ) := by exact_mod_cast h1
  have hw1 := outputMetadata_first md (t1 : ℚ)
    (by rw [zeroTimeUnix]; intro hcon; linarith)
  have hstale := loadSafe_after_save
    (mapSet (mapSet md lastTimeKey .null) lastTimeKey (.i64 (unixSec (t1 : ℚ))))
    (unixSec (t1 : ℚ)) t2 (mapGet_mapSet_self _ _ _)
    (by rw [unixSec_intCast]; exact h2)
  have hw2 := outputMetadata_stale md t2
    ⟨some (mapSet (mapSet md lastTimeKey .null) lastTimeKey (.i64 (unixSec (t1 : ℚ)))),
      [md], 1⟩ hstale
  rw [hw1, hw2]
  exact ⟨rfl, rfl⟩

theorem c1_metadata_second_run_suppressed_witness :
    (OutputMetadataValues [("b".toList, GoValue.str "y".toList)] (141 / 2)
      (OutputMetadataValues [("b".toList, GoValue.str "y".toList)] ((70 : ℤ) : ℚ)
        ⟨none, [], 0⟩)).writes = 1 ∧
    (OutputMetadataValues [("b".toList, GoValue.str "y".toList)] (141 / 2)
      (OutputMetadataValues [("b".toList, GoValue.str "y".toList)] ((70 : ℤ) : ℚ)
        ⟨none, [], 0⟩)).stdout = [[("b".toList, GoValue.str "y".toList)]] :=
  c1_metadata_second_run_suppressed [("b".toList, GoValue.str "y".toList)] 70 (141 / 2)
    (by norm_num) (by push_cast; norm_num)

/-! ## Claims about the Output Formatter -/

/-- Shared evaluation of `formatValues` on a metric without diff or
scale whose looked-up value is a string, for the unsigned value-kinds:
the emitted value is exactly the value returned by the parser, error
or not. -/
theorem formatValues_str_eval (pluginKey pfx s : List Char) (metric : Metrics)
    (mv lmv : PluginValues) (hd : metric.Diff = false) (hs : metric.Scale = 0)
    (ha : metric.AbsoluteName = false)
    (hl : mapGet mv.Values metric.Name = some (.str s)) :
    (metric.Typ = metricTypeUint32 →
      (formatValues pluginKey pfx metric mv lmv).1 =
        some (joinName pluginKey pfx metric.Name, .u64 (parseUintGo s maxUint32).1,
          unixSec mv.Timestamp)) ∧
    (metric.Typ = metricTypeUint64 →
      (formatValues pluginKey pfx metric mv lmv).1 =
        some (joinName pluginKey pfx metric.Name, .u64 (parseUintGo s maxUint64).1,
          unixSec mv.Timestamp)) := by
  constructor
  · intro hty
    simp [formatValues, ha, hd, hs, hty, hl, printValue]
  · intro hty
    have hne : ¬ metricTypeUint64 = metricTypeUint32 := by decide
    simp [formatValues, ha, hd, hs, hty, hl, printValue, hne]

/-- Shared evaluation of `formatValues` for the float value-kind: the
line carries the parser's returned value when it is finite, and is
suppressed by `printValue` when the parser returned ±infinity. -/
theorem formatValues_str_float (pluginKey pfx s : List Char) (metric : Metrics)
    (mv lmv : PluginValues) (hd : metric.Diff = false) (hs : metric.Scale = 0)
    (ha : metric.AbsoluteName = false)
    (hl : mapGet mv.Values metric.Name = some (.str s))
    (hty1 : ¬ metric.Typ = metricTypeUint32) (hty2 : ¬ metric.Typ = metricTypeUint64) :
    (formatValues pluginKey pfx metric mv lmv).1 =
      if ((parseFloatGo s).1).isFinite = true then
        some (joinName pluginKey pfx metric.Name, .f (parseFloatGo s).1,
          unixSec mv.Timestamp)
      else none := by
  by_cases hf : ((parseFloatGo s).1).isFinite = true
  · simp [formatValues, ha, hd, hs, hty1, hty2, hl, printValue, hf]
  · simp [formatValues, ha, hd, hs, hty1, hty2, hl, printValue, hf]

/-- C7 counterexample: a uint32-kind metric whose stored value is the
string "4294967296" (one past the uint32 range) fails to parse with a
range error, and the cycle emits the parser's returned value
4294967295 — the uint32 maximum, not 0. -/
theorem c7_parse_fallback_counterexample :
    (formatValues "k".toList [] ⟨"m".toList, [], false, metricTypeUint32, false, 0, false⟩
      ⟨[("m".toList, .str "4294967296".toList)], 100⟩ ⟨[], 0⟩).1 =
      some ("k.m".toList, .u64 4294967295, 100) ∧
    (parseUintGo "4294967296".toList maxUint32).2 = some .rangeErr ∧
    (4294967295 : Nat) ≠ 0 := by
  have hts : unixSec (100 : ℚ) = (100 : ℤ) := by
    have h0 : (100 : ℚ) = ((100 : ℤ) : ℚ) := by norm_num
    rw [h0, unixSec_intCast]
  have hev := (formatValues_str_eval "k".toList [] "4294967296".toList
    ⟨"m".toList, [], false, metricTypeUint32, false, 0, false⟩
    ⟨[("m".toList, .str "4294967296".toList)], 100⟩ ⟨[], 0⟩ rfl rfl rfl
    (by simp [mapGet])).1 rfl
  have hval : (parseUintGo "4294967296".toList maxUint32).1 = 4294967295 := by decide
  have hjoin : joinName "k".toList [] "m".toList = "k.m".toList := by decide
  refine ⟨?_, by decide, by decide⟩
  rw [hev, hval, hjoin, hts]

/-- C7 (amended): when a metric's looked-up raw value is a string, the
failure to parse it under the declared value-kind is only logged and
the cycle continues with the value the parser returned alongside the
error.  For the uint32/uint64 kinds that value is 0 on a syntax error
but the kind's maximum on a range error.  For the float kind (decimal
strings), a syntax error or an underflow yields 0 (emitted), while an
overflow yields ±infinity with a range error — which `printValue` then
suppresses, so no line is emitted for that metric. -/
theorem c7_parse_fallback (pluginKey pfx s : List Char) (metric : Metrics)
    (mv lmv : PluginValues) (hd : metric.Diff = false) (hs : metric.Scale = 0)
    (ha : metric.AbsoluteName = false)
    (hl : mapGet mv.Values metric.Name = some (.str s)) :
    (metric.Typ = metricTypeUint32 →
      (formatValues pluginKey pfx metric mv lmv).1 =
        some (joinName pluginKey pfx metric.Name, .u64 (parseUintGo s maxUint32).1,
          unixSec mv.Timestamp)) ∧
    (metric.Typ = metricTypeUint64 →
      (formatValues pluginKey pfx metric mv lmv).1 =
        some (joinName pluginKey pfx metric.Name, .u64 (parseUintGo s maxUint64).1,
          unixSec mv.Timestamp)) ∧
    (¬ metric.Typ = metricTypeUint32 → ¬ metric.Typ = metricTypeUint64 →
      (∀ c ∈ s, isDigitChar c = true ∨ c = '+' ∨ c = '-' ∨ c = '.' ∨ c = 'e' ∨ c = 'E') →
      ∀ e, (parseFloatGo s).2 = some e →
      (formatValues pluginKey pfx metric mv lmv).1 =
        if ((parseFloatGo s).1).isFinite = true then
          some (joinName pluginKey pfx metric.Name, .f (parseFloatGo s).1,
            unixSec mv.Timestamp)
        else none) :=
  ⟨(formatValues_str_eval pluginKey pfx s metric mv lmv hd hs ha hl).1,
    (formatValues_str_eval pluginKey pfx s metric mv lmv hd hs ha hl).2,
    fun hty1 hty2 _ _ _ =>
      formatValues_str_float pluginKey pfx s metric mv lmv hd hs ha hl hty1 hty2⟩

theorem c7_parse_fallback_witness :
    ((⟨"m".toList, [], false, [], false, 0, false⟩ : Metrics).Typ = metricTypeUint32 →
      (formatValues "k".toList [] (⟨"m".toList, [], false, [], false, 0, false⟩ : Metrics)
        ⟨[("m".toList, .str ".".toList)], 100⟩ ⟨[], 0⟩).1 =
        some (joinName "k".toList []
            (⟨"m".toList, [], false, [], false, 0, false⟩ : Metrics).Name,
          .u64 (parseUintGo ".".toList maxUint32).1,
          unixSec (⟨[("m".toList, .str ".".toList)], 100⟩ : PluginValues).Timestamp)) ∧
    ((⟨"m".toList, [], false, [], false, 0, false⟩ : Metrics).Typ = metricTypeUint64 →
      (formatValues "k".toList [] (⟨"m".toList, [], false, [], false, 0, false⟩ : Metrics)
        ⟨[("m".toList, .str ".".toList)], 100⟩ ⟨[], 0⟩).1 =
        some (joinName "k".toList []
            (⟨"m".toList, [], false, [], false, 0, false⟩ : Metrics).Name,
          .u64 (parseUintGo ".".toList maxUint64).1,
          unixSec (⟨[("m".toList, .str ".".toList)], 100⟩ : PluginValues).Timestamp)) ∧
    (¬ (⟨"m".toList, [], false, [], false, 0, false⟩ : Metrics).Typ = metricTypeUint32 →
      ¬ (⟨"m".toList, [], false, [], false, 0, false⟩ : Metrics).Typ = metricTypeUint64 →
      (∀ c ∈ ".".toList,
        isDigitChar c = true ∨ c = '+' ∨ c = '-' ∨ c = '.' ∨ c = 'e' ∨ c = 'E') →
      ∀ e, (parseFloatGo ".".toList).2 = some e →
      (formatValues "k".toList [] (⟨"m".toList, [], false, [], false, 0, false⟩ : Metrics)
        ⟨[("m".toList, .str ".".toList)], 100⟩ ⟨[], 0⟩).1 =
        if ((parseFloatGo ".".toList).1).isFinite = true then
          some (joinName "k".toList []
              (⟨"m".toList, [], false, [], false, 0, false⟩ : Metrics).Name,
            .f (parseFloatGo ".".toList).1,
            unixSec (⟨[("m".toList, .str ".".toList)], 100⟩ : PluginValues).Timestamp)
        else none) :=
  c7_parse_fallback "k".toList [] ".".toList
    ⟨"m".toList, [], false, [], false, 0, false⟩
    ⟨[("m".toList, .str ".".toList)], 100⟩ ⟨[], 0⟩ rfl rfl rfl (by simp [mapGet])

/-- The matcher is anchored only at the start: a full match of the
token list extends to any continuation of the observed key. -/
theorem matchToks_of_matchFull : ∀ (ts : List PatTok) (m rest : List Char),
    matchFull ts m = true → matchToks ts (m ++ rest) = true := by
  intro ts
  induction ts with
  | nil => intro m rest _; simp [matchToks]
  | cons t ts ih =>
    intro m rest h
    cases t with
    | lit c =>
      cases m with
      | nil => simp [matchFull] at h
      | cons x xs =>
        simp [matchFull] at h
        simp [matchToks, h.1, ih xs rest h.2]
    | classPlus =>
      simp only [matchFull, List.any_eq_true, List.mem_range] at h
      obtain ⟨i, hi, hcond⟩ := h
      simp only [Bool.and_eq_true] at hcond
      obtain ⟨hall, hrec⟩ := hcond
      have hle : i + 1 ≤ m.length := hi
      simp only [matchToks, List.any_eq_true, List.mem_range]
      refine ⟨i, ?_, ?_⟩
      · simp only [List.length_append]
        omega
      · simp only [Bool.and_eq_true]
        rw [List.take_append_of_le_length hle, List.drop_append_of_le_length hle]
        exact ⟨hall, ih _ rest hrec⟩

/-- Evaluation of `formatValues` on a plain uint64 observed value. -/
theorem formatValues_u64_pair (pluginKey pfx : List Char) (metric : Metrics)
    (mv lmv : PluginValues) (n : Nat) (hd : metric.Diff = false) (hs : metric.Scale = 0)
    (ha : metric.AbsoluteName = false)
    (hl : mapGet mv.Values metric.Name = some (.u64 n)) :
    formatValues pluginKey pfx metric mv lmv =
      (some (joinName pluginKey pfx metric.Name, .u64 n, unixSec mv.Timestamp),
        mv.Values) := by
  simp [formatValues, ha, hd, hs, hl, printValue]

/-- C9: the wildcard matcher built by `formatValuesWithWildcard` is
anchored only at the start of the observed key: any key that begins
with a full match of the compiled `prefix.name` pattern matches, even
when it continues past the matched portion; in particular pattern
`cpu.*` also emits the observed key `cpu.user.total` as a concrete
metric. -/
theorem c9_wildcard_start_anchored (pfx nm m rest : List Char)
    (h : matchFull (buildPattern pfx nm) m = true) :
    matchToks (buildPattern pfx nm) (m ++ rest) = true ∧
    (formatValuesWithWildcard "k".toList "cpu".toList
        ⟨"*".toList, [], false, [], false, 0, false⟩
        ⟨[("cpu.user.total".toList, .u64 5)], 100⟩ ⟨[], 0⟩).1 =
      [("k.cpu.user.total".toList, .u64 5, 100)] := by
  refine ⟨matchToks_of_matchFull _ _ _ h, ?_⟩
  have hts : unixSec (100 : ℚ) = (100 : ℤ) := by
    have h0 : (100 : ℚ) = ((100 : ℤ) : ℚ) := by norm_num
    rw [h0, unixSec_intCast]
  have hmt : matchToks (buildPattern "cpu".toList "*".toList) "cpu.user.total".toList
      = true := by decide
  have hfv := formatValues_u64_pair "k".toList []
    ⟨"cpu.user.total".toList, [], false, [], false, 0, false⟩
    ⟨[("cpu.user.total".toList, .u64 5)], 100⟩ ⟨[], 0⟩ 5 rfl rfl rfl (by simp [mapGet])
  have hjoin : joinName "k".toList [] "cpu.user.total".toList =
      "k.cpu.user.total".toList := by decide
  rw [formatValuesWithWildcard]
  simp at hmt hfv hjoin
  simp [hmt, hfv, hjoin, hts]

theorem c9_wildcard_start_anchored_witness :
    matchToks (buildPattern "cpu".toList "*".toList)
      ("cpu.u".toList ++ "ser.total".toList) = true ∧
    (formatValuesWithWildcard "k".toList "cpu".toList
        ⟨"*".toList, [], false, [], false, 0, false⟩
        ⟨[("cpu.user.total".toList, .u64 5)], 100⟩ ⟨[], 0⟩).1 =
      [("k.cpu.user.total".toList, .u64 5, 100)] :=
  c9_wildcard_start_anchored "cpu".toList "*".toList "cpu.u".toList "ser.total".toList
    (by decide)

end IdpcPlugin
